import Mathlib

/-!
Verification development for the giorgio repository.

The Python sources are shallowly embedded: pure functions become Lean
functions, interactive prompts become functions of the user's (explicitly
supplied) answers, and the Tk application state becomes an explicit record
threaded through the operations.  `%`-free machine arithmetic is not needed:
all integers in the sources are unbounded Python ints, matching `Int`.
-/

namespace Giorgio

/-- The single-quote character, used to build Python error-message strings. -/
def sq : String := String.mk [Char.ofNat 39]

/-- First-match association-list lookup; models Python dict lookup
(dict keys are unique, so first match is the match). -/
def alookup {α : Type} : List (String × α) → String → Option α
  | [], _ => none
  | (k0, v0) :: rest, k => if k0 = k then some v0 else alookup rest k

/-- In-place update of an association list; models Python `d[k] = v`:
an existing key keeps its position, a new key is appended at the end. -/
def dictSet {α : Type} : List (String × α) → String → α → List (String × α)
  | [], k, v => [(k, v)]
  | (k0, v0) :: rest, k, v =>
    if k0 = k then (k, v) :: rest else (k0, v0) :: dictSet rest k v

/-- Python runtime values that flow through the prompt and form layers. -/
inductive Value where
  | vNone
  | vStr (s : String)
  | vInt (n : Int)
  | vBool (b : Bool)
  | vPath (p : String)
  | vList (xs : List Value)
deriving Repr

/-- True for Python `None` (the value `vNone`). -/
def Value.isNone : Value → Bool
  | .vNone => true
  | _ => false

/-- The check `value is None or (isinstance(value, str) and value == "")`
performed by prompt_for_params' final required-field pass. -/
def Value.isNoneOrEmptyStr : Value → Bool
  | .vNone => true
  | .vStr s => s = ""
  | _ => false

mutual

/-- Python `repr` of a value, as used by `str` on lists.  String escaping
inside `repr` of a string is not modelled (no claim exercises it). -/
def pyRepr : Value → String
  | .vNone => "None"
  | .vStr s => sq ++ s ++ sq
  | .vInt n => toString n
  | .vBool true => "True"
  | .vBool false => "False"
  | .vPath p => "PosixPath(" ++ sq ++ p ++ sq ++ ")"
  | .vList xs => "[" ++ pyReprList xs ++ "]"

/-- Comma-separated `repr`s of the elements of a Python list. -/
def pyReprList : List Value → String
  | [] => ""
  | [x] => pyRepr x
  | x :: y :: rest => pyRepr x ++ ", " ++ pyReprList (y :: rest)

end

/-- Python `str(value)`.  `str` of a `Path` is modelled as the stored string
(pathlib's normalisation is not exercised by any claim). -/
def pyStr : Value → String
  | .vNone => "None"
  | .vStr s => s
  | .vInt n => toString n
  | .vBool true => "True"
  | .vBool false => "False"
  | .vPath p => p
  | .vList xs => "[" ++ pyReprList xs ++ "]"

/-- Python truthiness of a value. -/
def pyTruthy : Value → Bool
  | .vNone => false
  | .vStr s => !(s = "")
  | .vInt n => !(n = 0)
  | .vBool b => b
  | .vPath _ => true
  | .vList xs => !xs.isEmpty

/-- Digit run continuing a Python int literal: digits optionally separated
by single underscores (no trailing or doubled underscore). -/
def digitsTail : List Char → Option (List Char)
  | [] => some []
  | '_' :: c :: rest =>
    if c.isDigit then (digitsTail rest).map (fun l => c :: l) else none
  | ['_'] => none
  | c :: rest =>
    if c.isDigit then (digitsTail rest).map (fun l => c :: l) else none

/-- Value of a digit character. -/
def digitVal (c : Char) : Nat := c.toNat - 48

/-- Unsigned decimal literal: a leading digit followed by a `digitsTail`. -/
def parseNatCore (cs : List Char) : Option Nat :=
  match cs with
  | [] => none
  | c :: rest =>
    if c.isDigit then
      (digitsTail rest).map (fun l => (c :: l).foldl (fun a d => a * 10 + digitVal d) 0)
    else none

/-- Strip every occurrence of `c` from both ends of a character list;
models Python `s.strip(c)` for a single-character argument. -/
def stripBoth (c : Char) (cs : List Char) : List Char :=
  ((cs.dropWhile (fun x => x = c)).reverse.dropWhile (fun x => x = c)).reverse

/-- Model of Python `int(text)` applied to a string: optional surrounding
whitespace, optional sign, then decimal digits possibly separated by single
underscores.  `none` models the `ValueError` Python raises otherwise. -/
def pyIntOfString (s : String) : Option Int :=
  let cs := ((s.data.dropWhile Char.isWhitespace).reverse.dropWhile Char.isWhitespace).reverse
  match cs with
  | '+' :: rest => (parseNatCore rest).map (fun n => (n : Int))
  | '-' :: rest => (parseNatCore rest).map (fun n => -(n : Int))
  | _ => (parseNatCore cs).map (fun n => (n : Int))

/-- Python's `ValueError` message for `int('<s>')`. -/
def intInvalidLiteral (s : String) : String :=
  "invalid literal for int() with base 10: " ++ sq ++ s ++ sq

/-! ## Embedding of src/giorgio/prompt.py -/

/-- Result of a user-supplied validator function: Python `False`, a string
message, or anything else (success). -/
inductive VRes where
  | tt
  | ff
  | msg (s : String)

/-- The parameter types reachable through prompt_for_params that the model
covers: `str`, `int`, `bool` and `pathlib.Path`.  (`float` behaves like
`int` in every dispatch decision; it is not modelled, being floating
point.) -/
inductive PType where
  | str
  | int
  | bool
  | path
deriving DecidableEq, Repr

/-- Python `type.__name__` for the modelled parameter types. -/
def PType.name : PType → String
  | .str => "str"
  | .int => "int"
  | .bool => "bool"
  | .path => "Path"

/-- Python exceptions raised by the prompt layer. -/
inductive PyErr where
  | valueError (msg : String)
  | typeError (msg : String)
deriving DecidableEq, Repr

/-- The message carried by an exception (`str(e)`). -/
def PyErr.message : PyErr → String
  | .valueError m => m
  | .typeError m => m

/-- Message of `_prompt_choices`' required-parameter ValueError. -/
def requiredMsg (key : String) : String :=
  "Parameter " ++ sq ++ key ++ sq ++ " is required."

/-- Message of prompt_for_params' final required-check ValueError. -/
def requiredNotProvidedMsg (key : String) : String :=
  "Parameter " ++ sq ++ key ++ sq ++ " is required but was not provided."

/-- Calling `param_type(value)` on an already-coerced value, as done at the
end of prompt_for_params' text branch (and inside `_prompt_text`). -/
def pyCallType (τ : PType) (v : Value) : Except PyErr Value :=
  match τ, v with
  | .str, v => .ok (.vStr (pyStr v))
  | .int, .vInt n => .ok (.vInt n)
  | .int, .vBool b => .ok (.vInt (if b then 1 else 0))
  | .int, .vStr s =>
    match pyIntOfString s with
    | some n => .ok (.vInt n)
    | none => .error (.valueError (intInvalidLiteral s))
  | .int, _ =>
    .error (.typeError "int() argument must be a string, a bytes-like object or a real number")
  | .bool, v => .ok (.vBool (pyTruthy v))
  | .path, .vStr s => .ok (.vPath s)
  | .path, .vPath p => .ok (.vPath p)
  | .path, _ => .error (.typeError "argument should be a str or an os.PathLike object")

/-- True when a string has the exact shape of a `$`-brace placeholder:
it starts with the two characters dollar + open-brace and ends with a
close-brace (the braces are written by code point, 123 and 125). -/
def isPlaceholder (s : String) : Bool :=
  match s.data with
  | '$' :: lb :: rest => lb = Char.ofNat 123 && rest.getLast? = some (Char.ofNat 125)
  | _ => false

/-- The variable name inside a placeholder, Python `default[2:-1]`. -/
def placeholderVarName (s : String) : String :=
  match s.data with
  | _ :: _ :: rest => String.mk rest.dropLast
  | _ => ""

/-- Embedding of prompt._resolve_default: a string default of placeholder
shape is replaced by `env.get(VAR)` (None when absent); every other value is
returned unchanged. -/
def resolveDefault (d : Value) (env : List (String × String)) : Value :=
  match d with
  | .vStr s =>
    if isPlaceholder s then
      match alookup env (placeholderVarName s) with
      | some v => .vStr v
      | none => .vNone
    else .vStr s
  | d => d

/-- Embedding of prompt._Node: a node of the script navigator tree.
Children are an insertion-ordered association list, matching the Python
dict. -/
inductive Node where
  | mk (name : String) (isScript : Bool) (children : List (String × Node))

/-- Stored name of a node. -/
def Node.name : Node → String
  | .mk n _ _ => n

/-- Whether a node is a script leaf. -/
def Node.isScript : Node → Bool
  | .mk _ b _ => b

/-- The children association list of a node. -/
def Node.children : Node → List (String × Node)
  | .mk _ _ c => c

/-- Setting `node.is_script = True` on an existing node. -/
def promote : Node → Node
  | .mk n _ c => .mk n true c

/-- Split a character list on `/`, keeping empty segments; models Python
`str.split("/")`.  The accumulator holds the current segment reversed. -/
def splitOnSlash : List Char → List Char → List String
  | acc, [] => [String.mk acc.reverse]
  | acc, c :: rest =>
    if c = '/' then String.mk acc.reverse :: splitOnSlash [] rest
    else splitOnSlash (c :: acc) rest

/-- `path.strip("/").split("/")` from ScriptFinder._build_tree. -/
def partsOfPath (path : String) : List String :=
  splitOnSlash [] (stripBoth '/' path.data)

/-- Insert one path (already split into parts) into the tree: missing nodes
are created with `is_script` true exactly on the last part; an existing node
hit by the last part is promoted to a script. -/
def insertParts : List String → Node → Node
  | [], t => t
  | p :: rest, .mk nm sc children =>
    let child0 :=
      match alookup children p with
      | some c => if rest.isEmpty then promote c else c
      | none => Node.mk p rest.isEmpty []
    Node.mk nm sc (dictSet children p (insertParts rest child0))

/-- ScriptFinder._build_tree over a list of slash-delimited choices. -/
def buildTree (choices : List String) : Node :=
  choices.foldl (fun t path => insertParts (partsOfPath path) t) (Node.mk "" false [])

/-- Walk the tree along a list of child names. -/
def navigate : Node → List String → Option Node
  | t, [] => some t
  | t, p :: ps =>
    match alookup t.children p with
    | some c => navigate c ps
    | none => none

/-- Whether the node at position `q` exists and is a script. -/
def scrAt (t : Node) (q : List String) : Bool :=
  match navigate t q with
  | some c => c.isScript
  | none => false

/-- All intermediate nodes along `q` exist and none of them is a script
(so each step is offered as a directory in the menu). -/
def dirChain : Node → List String → Bool
  | _, [] => true
  | t, p :: ps =>
    match alookup t.children p with
    | some c => !c.isScript && dirChain c ps
    | none => false

/-- One user interaction with the ScriptFinder.ask menu. -/
inductive NavAction where
  | back
  | selectDir (name : String)
  | selectScript (name : String)
  | cancel

/-- The loop state of ScriptFinder.ask: current node, ancestor stack, and
the accumulated path parts. -/
structure NavState where
  current : Node
  stack : List Node
  parts : List String

/-- Outcome of one loop iteration of ScriptFinder.ask. -/
inductive NavStep where
  | cont (s : NavState)
  | done (r : Option String)
  | stuck

/-- One iteration of the ScriptFinder.ask loop.  `stuck` marks a selection
the menu does not offer (the real UI only ever offers listed items): back
only with a non-empty stack, a directory only for a non-script child, a
script only for a script child. -/
def navStep (s : NavState) (a : NavAction) : NavStep :=
  match a with
  | .cancel => .done none
  | .back =>
    match s.stack with
    | prev :: rest => .cont ⟨prev, rest, s.parts.dropLast⟩
    | [] => .stuck
  | .selectDir n =>
    match alookup s.current.children n with
    | some c =>
      if c.isScript then .stuck else .cont ⟨c, s.current :: s.stack, s.parts ++ [n]⟩
    | none => .stuck
  | .selectScript n =>
    match alookup s.current.children n with
    | some c =>
      if c.isScript then .done (some (String.intercalate "/" (s.parts ++ [n]))) else .stuck
    | none => .stuck

/-- Run the ask loop on a list of user actions.  `some r` is the call's
return value; `none` means the interaction never completed. -/
def runAsk : NavState → List NavAction → Option (Option String)
  | _, [] => none
  | s, a :: rest =>
    match navStep s a with
    | .cont s' => runAsk s' rest
    | .done r => some r
    | .stuck => none

/-- The initial ask state at the root of a tree. -/
def initNav (t : Node) : NavState := ⟨t, [], []⟩

/-- Boolean initial-segment test on part lists. -/
def initialSeg : List String → List String → Bool
  | [], _ => true
  | _ :: _, [] => false
  | a :: as, b :: bs => a = b && initialSeg as bs

/-- The action sequence that drills down a path: a directory-select for
every part but the last, then a script-select of the last part. -/
def navActsFor : List String → List NavAction
  | [] => []
  | [n] => [.selectScript n]
  | n :: rest => .selectDir n :: navActsFor rest

/-- Invariant of the ask loop relating the current node, the ancestor
stack and the accumulated parts to the tree's root: the state is the
result of descending through non-script children. -/
inductive StackInv (root : Node) : Node → List Node → List String → Prop where
  | nil : StackInv root root [] []
  | push {cur st ps n c} : StackInv root cur st ps →
      alookup cur.children n = some c → c.isScript = false →
      StackInv root c (cur :: st) (ps ++ [n])

/-- The inline validator `_prompt_text` installs (its local
`type_validator`): empty text is accepted unless the field is required with
a `None` default; otherwise the declared type's constructor is attempted
(its ValueError becoming "Please enter a valid …") and then the custom
validator runs on the coerced value.  Any other exception's message is
surfaced by `_CustomValidator`. -/
def typeValidatorCheck (defaultS : Option String) (τ : PType) (required : Bool)
    (vf : Option (Value → VRes)) (text : String) : Except String Unit :=
  if text = "" then
    if required ∧ defaultS.isNone then .error "This field is required." else .ok ()
  else
    match pyCallType τ (.vStr text) with
    | .error (.valueError _) => .error ("Please enter a valid " ++ τ.name ++ ".")
    | .error e => .error e.message
    | .ok val =>
      match vf with
      | none => .ok ()
      | some f =>
        match f val with
        | .ff => .error "Validation failed."
        | .msg m => .error m
        | .tt => .ok ()

/-- Embedding of `_prompt_text`.  `answer` is the text the user finally
submits (`none` = cancelled); questionary only lets a submission through
when the inline validator accepts it, so a rejected submission yields `none`
(no completed interaction).  On an empty submission the (string) default is
returned unconverted; otherwise int/float input is converted, any other type
is returned as the raw string. -/
def promptText (defaultS : Option String) (τ : PType) (required : Bool)
    (vf : Option (Value → VRes)) (answer : Option String) :
    Option (Except PyErr Value) :=
  match answer with
  | none =>
    match τ with
    | .int => some (pyCallType .int .vNone)
    | _ => some (.ok .vNone)
  | some s =>
    match typeValidatorCheck defaultS τ required vf s with
    | .error _ => none
    | .ok _ =>
      if s = "" then
        some (.ok (match defaultS with | some d => .vStr d | none => .vNone))
      else
        match τ with
        | .int => some (pyCallType .int (.vStr s))
        | _ => some (.ok (.vStr s))

/-- The single-select retry loop of `_prompt_choices`: with no custom
validator the first answer is accepted; otherwise answers (including a
cancelled `None`) are fed to the validator until one passes. -/
def selectLoop (vf : Option (Value → VRes)) : List (Option Value) → Option (Option Value)
  | [] => none
  | a :: rest =>
    match vf with
    | none => some a
    | some f =>
      match f (match a with | some v => v | none => .vNone) with
      | .tt => some a
      | _ => selectLoop vf rest

/-- The user's interaction with one field of a schema. -/
inductive FieldAnswer where
  | confirm (b : Option Bool)
  | single (attempts : List (Option Value))
  | multi (sel : Option (List Value))
  | pathText (raw : Option String)
  | text (raw : Option String)

/-- Embedding of `_prompt_choices`.  A cancelled checkbox resolves to the
empty list before any required check; a completed one passes the validate
hook.  A single select loops on validator failure, and only afterwards
raises when the field is required but the answer was cancelled. -/
def promptChoices (key : String) (choices : List Value) (defaultV : Value)
    (multiple : Bool) (vf : Option (Value → VRes)) (required : Bool)
    (ans : FieldAnswer) : Option (Except PyErr Value) :=
  match multiple, ans with
  | true, .multi none => some (.ok (.vList []))
  | true, .multi (some l) =>
    match vf with
    | none => some (.ok (.vList l))
    | some f =>
      match f (.vList l) with
      | .tt => some (.ok (.vList l))
      | _ => none
  | false, .single attempts =>
    match selectLoop vf attempts with
    | none => none
    | some a =>
      if required ∧ a.isNone then some (.error (.valueError (requiredMsg key)))
      else some (.ok (match a with | some v => v | none => .vNone))
  | _, _ => none

/-- The inline validator `_prompt_path` installs: empty text fails only for
a required field with a `None` default; otherwise the custom validator runs
on the constructed path. -/
def pathValidatorCheck (defaultV : Value) (required : Bool)
    (vf : Option (Value → VRes)) (text : String) : Except String Unit :=
  if text = "" then
    if required ∧ defaultV.isNone then .error "This field is required." else .ok ()
  else
    match vf with
    | none => .ok ()
    | some f =>
      match f (.vPath text) with
      | .ff => .error "Validation failed."
      | .msg m => .error m
      | .tt => .ok ()

/-- Embedding of `_prompt_path`: an empty submission returns the resolved
default unchanged; a non-empty one returns `Path(answer)`; a cancelled
prompt reaches `Path(None)`, a TypeError. -/
def promptPath (defaultV : Value) (required : Bool)
    (vf : Option (Value → VRes)) (answer : Option String) :
    Option (Except PyErr Value) :=
  match answer with
  | none => some (pyCallType .path .vNone)
  | some s =>
    match pathValidatorCheck defaultV required vf s with
    | .error _ => none
    | .ok _ =>
      if s = "" then some (.ok defaultV)
      else some (.ok (.vPath s))

/-- One field's schema entry (the dict of metadata prompt_for_params reads
with `.get`).  A missing `default` key and an explicit `None` default are
indistinguishable in Python; both are `vNone` here. -/
structure FieldMeta where
  type : PType := .str
  required : Bool := false
  default : Value := .vNone
  choices : Option (List Value) := none
  description : Option String := none
  secret : Bool := false
  validator : Option (Value → VRes) := none
  multiple : Bool := false

/-- Python truthiness of `meta.get("choices")`: present and non-empty. -/
def choicesTruthy (meta : FieldMeta) : Bool :=
  match meta.choices with
  | some (_ :: _) => true
  | _ => false

/-- One loop iteration of prompt_for_params for a single field: resolve the
default, dispatch on the field's shape, and (in the text branch only) apply
`param_type` to the prompt's result. -/
def promptField (key : String) (meta : FieldMeta) (env : List (String × String))
    (ans : FieldAnswer) : Option (Except PyErr Value) :=
  let defaultV := resolveDefault meta.default env
  if meta.type = .bool ∧ choicesTruthy meta = false then
    match ans with
    | .confirm b => some (.ok (match b with | some x => .vBool x | none => .vNone))
    | _ => none
  else if choicesTruthy meta = true then
    match meta.choices with
    | some cs => promptChoices key cs defaultV meta.multiple meta.validator meta.required ans
    | none => none
  else if meta.type = .path then
    match ans with
    | .pathText raw => promptPath defaultV meta.required meta.validator raw
    | _ => none
  else
    match ans with
    | .text raw =>
      let defaultS : Option String := some (if defaultV.isNone then "" else pyStr defaultV)
      match promptText defaultS meta.type meta.required meta.validator raw with
      | none => none
      | some (.error e) => some (.error e)
      | some (.ok v) => some (pyCallType meta.type v)
    | _ => none

/-- Embedding of prompt_for_params: fields are processed in schema order,
each consuming one `FieldAnswer`; after each field the final required check
runs, and the first raised exception aborts the whole collection.  `none`
means some interaction never completed. -/
def promptForParams : List (String × FieldMeta) → List (String × String) →
    List FieldAnswer → Option (Except PyErr (List (String × Value)))
  | [], _, _ => some (.ok [])
  | (k, meta) :: rest, env, ans :: answers =>
    match promptField k meta env ans with
    | none => none
    | some (.error e) => some (.error e)
    | some (.ok v) =>
      if meta.required ∧ v.isNoneOrEmptyStr then
        some (.error (.valueError (requiredNotProvidedMsg k)))
      else
        match promptForParams rest env answers with
        | none => none
        | some (.error e) => some (.error e)
        | some (.ok coll) => some (.ok ((k, v) :: coll))
  | _ :: _, _, [] => none

/-! ## Embedding of src/src/giorgio/giorgio.py (the Tk application) -/

/-- The state of one input widget the form builder creates. -/
inductive GWidget where
  | entry (dataType : String) (content : String)
  | checkbutton (checked : Bool)
  | listboxSingle (items : List String) (sel : Option Nat)
  | listboxMulti (items : List String) (sels : List Nat)

/-- One field's configuration dict in the Tk app's schema format. -/
structure GFieldConfig where
  label : Option String := none
  type : String := "string"
  default : Option Value := none
  options : Option (List String) := none
  multiple : Bool := false

/-- Widget creation for one field of create_grouped_form: an `options` key
switches to a listbox (per-key override from the `options` argument taking
precedence), a boolean type to a checkbutton pre-set from the default's
boolean value, anything else to an entry pre-filled with `str(default)`. -/
def createWidget (cfg : GFieldConfig) (optsOverride : Option (List String)) : GWidget :=
  match cfg.options with
  | some baseOpts =>
    let opts := match optsOverride with | some o => o | none => baseOpts
    if cfg.multiple then .listboxMulti opts [] else .listboxSingle opts none
  | none =>
    if cfg.type = "boolean" then
      .checkbutton (match cfg.default with | some (.vBool b) => b | _ => false)
    else
      .entry cfg.type (pyStr (match cfg.default with | some d => d | none => .vStr ""))

/-- create_grouped_form for a single group: one widget per schema key, in
schema order. -/
def createFormOne (schema : List (String × GFieldConfig))
    (options : Option (List (String × List String))) : List (String × GWidget) :=
  schema.map (fun kv =>
    (kv.1, createWidget kv.2 (match options with
      | some o => alookup o kv.1
      | none => none)))

/-- Harvest one widget into a typed value, as get_grouped_values does:
single listbox → the selected item or `""`; multi listbox → list of
selected items; checkbutton → its boolean; entry → per-`data_type`
conversion, an unparsable integer keeping the raw string. -/
def harvestWidget : GWidget → Value
  | .listboxSingle items sel =>
    match sel with
    | some i => .vStr (items.getD i "")
    | none => .vStr ""
  | .listboxMulti items sels => .vList (sels.map (fun i => .vStr (items.getD i "")))
  | .checkbutton b => .vBool b
  | .entry dt val =>
    if dt = "integer" then
      match pyIntOfString val with
      | some n => .vInt n
      | none => .vStr val
    else if dt = "boolean" then
      .vBool (val.toLower = "true" || val.toLower = "1" || val.toLower = "yes")
    else if dt = "path" then .vPath val
    else .vStr val

/-- get_grouped_values restricted to one group's widgets. -/
def getGroupedValuesOne (ws : List (String × GWidget)) : List (String × Value) :=
  ws.map (fun kv => (kv.1, harvestWidget kv.2))

/-- get_grouped_values over all groups. -/
def getGroupedValues (groups : List (String × List (String × GWidget))) :
    List (String × List (String × Value)) :=
  groups.map (fun g => (g.1, getGroupedValuesOne g.2))

/-- An edit the user performs on a widget while the app waits. -/
inductive GEdit where
  | setText (s : String)
  | setCheck (b : Bool)
  | setSel (sel : Option Nat)
  | setSels (sels : List Nat)

/-- Apply one edit to one widget; an edit of the wrong shape for the widget
(impossible in the real UI) leaves it unchanged, and listbox selections are
restricted to valid indices as Tk guarantees. -/
def applyEdit (w : GWidget) (e : GEdit) : GWidget :=
  match w, e with
  | .entry dt _, .setText s => .entry dt s
  | .checkbutton _, .setCheck b => .checkbutton b
  | .listboxSingle items _, .setSel s =>
    .listboxSingle items
      (match s with | some i => if i < items.length then some i else none | none => none)
  | .listboxMulti items _, .setSels ss => .listboxMulti items (ss.filter (fun i => i < items.length))
  | w, _ => w

/-- Apply a sequence of keyed edits to a group's widgets. -/
def applyEdits (edits : List (String × GEdit)) (ws : List (String × GWidget)) :
    List (String × GWidget) :=
  edits.foldl (fun acc ke =>
    acc.map (fun kw => if kw.1 = ke.1 then (kw.1, applyEdit kw.2 ke.2) else kw)) ws

/-- The GiorgioApp state observable by the claims: visibility of the
Additional Parameters frame, the registered additional widget groups, the
waiting flag, the Run button label, and the main-parameter widgets. -/
structure AppState where
  additionalVisible : Bool := false
  additionalWidgets : List (String × List (String × GWidget)) := []
  waitingForAdditional : Bool := false
  runBtnText : String := "Run Script"
  mainWidgets : List (String × GWidget) := []

/-- Embedding of GiorgioApp.get_additional_params.  The blocking
`wait_variable` is modelled by the `edits` the user performs before
pressing Continue: the section's widgets are created, shown and registered,
the user's edits mutate them in place, and on resume the section is
harvested, the waiting flag cleared and the button relabelled "Run Script".
The method never hides or clears the section. -/
def getAdditionalParams (st : AppState) (title : String)
    (schema : List (String × GFieldConfig)) (options : Option (List (String × List String)))
    (edits : List (String × GEdit)) : List (String × Value) × AppState :=
  let widgets := createFormOne schema options
  let edited := applyEdits edits widgets
  let stShown := { st with additionalVisible := true }
  let stReg := { stShown with additionalWidgets := dictSet stShown.additionalWidgets title edited }
  let values := getGroupedValuesOne edited
  (values, { stReg with waitingForAdditional := false, runBtnText := "Run Script" })

/-- Python `dict.update`: entries of `b` are written into `a` in order,
existing keys in place, new keys appended. -/
def dictUpdate (a b : List (String × Value)) : List (String × Value) :=
  b.foldl (fun acc kv => dictSet acc kv.1 kv.2) a

/-- The parameter-merging computation of GiorgioApp.execute_script: harvest
every additional group, harvest the main widgets, backstop each main-schema
key's value with the schema default (or `""`), flatten the additional groups
in order, and update the main parameters with the flattened values. -/
def executeScriptParams (configSchema : List (String × GFieldConfig))
    (mainWidgets : List (String × GWidget))
    (additionalWidgets : List (String × List (String × GWidget))) : List (String × Value) :=
  let additionalValues := getGroupedValues additionalWidgets
  let mainValues := getGroupedValuesOne mainWidgets
  let mainParams := configSchema.map (fun kc =>
    (kc.1, match alookup mainValues kc.1 with
      | some v => v
      | none => match kc.2.default with | some d => d | none => .vStr ""))
  let additionalFlat := additionalValues.foldl (fun acc g => dictUpdate acc g.2) []
  dictUpdate mainParams additionalFlat

/-- Spec-side description of "the last entry for a key wins": the value of
the last pair of `l` whose key is `k`. -/
def lastLookup (l : List (String × Value)) (k : String) : Option Value :=
  l.foldl (fun acc kv => if kv.1 = k then some kv.2 else acc) none

/-- Spec-side description of "later sections override earlier ones": the
value for `k` from the last group that mentions it. -/
def sectionsLookup (groups : List (String × List (String × Value))) (k : String) :
    Option Value :=
  groups.foldl (fun acc g =>
    match lastLookup g.2 k with
    | some v => some v
    | none => acc) none

/-! ## Embedding of src/giorgio/ai_client.py -/

/-- Chat message roles. -/
inductive Role where
  | system
  | user
  | assistant
  | tool
deriving DecidableEq, Repr

/-- One chat message (the Message dataclass / OpenAI message dict). -/
structure Msg where
  role : Role
  content : String
deriving DecidableEq, Repr

/-- Whether a message is a system message. -/
def Msg.isSystem (m : Msg) : Bool :=
  match m.role with
  | .system => true
  | _ => false

/-- A Python type or typing hint that is not a BaseModel subclass. -/
inductive PyHint where
  | str
  | int
  | float
  | other (name : String)
deriving DecidableEq, Repr

/-- A Pydantic model: a named record of fields. -/
structure RespModel where
  name : String
  fields : List (String × PyHint)
deriving DecidableEq, Repr

/-- The argument of with_schema / _resolve_response_model: either a
BaseModel subclass or a plain type/typing hint. -/
inductive SchemaTarget where
  | model (m : RespModel)
  | hint (h : PyHint)

/-- _wrap_primitive_in_model: the single-field model named `Value` whose
one field is called "value".  The process-wide `_MODEL_CACHE` only memoizes
this construction (the cache is written nowhere else), so it is omitted. -/
def wrapPrimitiveInModel (h : PyHint) : RespModel :=
  ⟨"Value", [("value", h)]⟩

/-- _resolve_response_model: a BaseModel subclass is used as-is (wrapped
flag false); anything else is wrapped (flag true). -/
def resolveResponseModel (t : SchemaTarget) : RespModel × Bool :=
  match t with
  | .model m => (m, false)
  | .hint h => (wrapPrimitiveInModel h, true)

/-- A value returned by the structured-completion service: either a scalar
or a model instance with named fields. -/
inductive PyVal where
  | vNone
  | vStr (s : String)
  | vInt (n : Int)
  | obj (fields : List (String × PyVal))
deriving Repr

/-- Attribute access on a model instance (`response.value`). -/
def PyVal.attr (v : PyVal) (name : String) : Option PyVal :=
  match v with
  | .obj fs => alookup fs name
  | _ => none

/-- The builder state of an AIClient: accumulated messages, the configured
response model and the wrapped-value flag. -/
structure AIClientState where
  msgs : List Msg := []
  responseModel : Option RespModel := none
  wrappedValue : Bool := false

/-- The `messages` property: all system messages merged (joined by a blank
line) into a single leading system message, followed by every non-system
message in order; no system entry at all when none was added. -/
def messagesOut (msgs : List Msg) : List Msg :=
  let systemMsgs := (msgs.filter Msg.isSystem).map Msg.content
  let otherMsgs := msgs.filter (fun m => !m.isSystem)
  match systemMsgs with
  | [] => otherMsgs
  | _ :: _ => ⟨Role.system, String.intercalate "\n\n" systemMsgs⟩ :: otherMsgs

/-- with_instructions: append one system message. -/
def withInstructions (st : AIClientState) (text : String) : AIClientState :=
  { st with msgs := st.msgs ++ [⟨.system, text⟩] }

/-- The user/assistant pairs with_examples appends. -/
def exampleMsgs : List String → List Msg
  | [] => []
  | e :: rest => ⟨.user, "Show me an example"⟩ :: ⟨.assistant, e⟩ :: exampleMsgs rest

/-- with_examples: append a user/assistant pair per example. -/
def withExamples (st : AIClientState) (examples : List String) : AIClientState :=
  { st with msgs := st.msgs ++ exampleMsgs examples }

/-- with_doc: append the context-document user message and the synthetic
assistant acknowledgment. -/
def withDoc (st : AIClientState) (name content : String) : AIClientState :=
  { st with msgs := st.msgs ++
      [⟨.user, "Context document [" ++ name ++ "]:\n" ++ content⟩,
       ⟨.assistant, "Document " ++ sq ++ name ++ sq ++ " received and understood."⟩] }

/-- with_schema: resolve (possibly wrapping) the target into the response
model, set the wrapped flag, and append the output-constraint exchange. -/
def withSchema (st : AIClientState) (t : SchemaTarget) (jsonOnly : Bool) : AIClientState :=
  let rm := resolveResponseModel t
  { st with
    responseModel := some rm.1,
    wrappedValue := rm.2,
    msgs := st.msgs ++
      [⟨.user, "Output constraint:\n" ++
          (if jsonOnly then "You MUST return ONLY valid JSON. No text outside the JSON."
           else "Your output MUST strictly conform to the expected schema.")⟩,
       ⟨.assistant, "Output constraint received and understood."⟩] }

/-- Embedding of AIClient.ask.  `svc` is the opaque structured-completion
service (Instructor), called with the merged `messages` property and the
response model; Instructor guarantees its result instantiates that model.
With no configured model, ask silently installs the str wrapper; when the
wrapped flag is set the `value` field is returned, otherwise the instance
itself. -/
def ask (svc : List Msg → RespModel → PyVal) (st : AIClientState) (prompt : String) :
    PyVal × AIClientState :=
  let st1 :=
    match st.responseModel with
    | none =>
      { st with responseModel := some (wrapPrimitiveInModel .str), wrappedValue := true }
    | some _ => st
  let st2 := { st1 with msgs := st1.msgs ++ [⟨.user, prompt⟩] }
  let rm := match st2.responseModel with
    | some m => m
    | none => wrapPrimitiveInModel .str
  let response := svc (messagesOut st2.msgs) rm
  (if st2.wrappedValue then
      (match response.attr "value" with | some v => v | none => .vNone)
    else response, st2)

/-- One builder call on an AIClient. -/
inductive BuilderOp where
  | instructions (text : String)
  | examples (xs : List String)
  | doc (name content : String)
  | schema (t : SchemaTarget) (jsonOnly : Bool)

/-- Apply one builder call. -/
def applyOp (st : AIClientState) (op : BuilderOp) : AIClientState :=
  match op with
  | .instructions t => withInstructions st t
  | .examples xs => withExamples st xs
  | .doc n c => withDoc st n c
  | .schema t j => withSchema st t j

/-- Apply a sequence of builder calls. -/
def applyOps : AIClientState → List BuilderOp → AIClientState
  | st, [] => st
  | st, op :: rest => applyOps (applyOp st op) rest

/-- The instruction texts of a builder-call sequence, in order: exactly the
system contents the sequence inserts. -/
def instructionTexts : List BuilderOp → List String
  | [] => []
  | .instructions t :: rest => t :: instructionTexts rest
  | _ :: rest => instructionTexts rest

/-! ## Concrete scenario data used by counterexamples and witnesses -/

/-- The schema entry of the spec's C5 scenario: an integer, required. -/
def c5meta : FieldMeta := { type := .int, required := true }

/-- A required integer field with no default (C4). -/
def c4metaA : FieldMeta := { type := .int, required := true }

/-- An integer field whose default is the non-numeric string "abc" (C4). -/
def c4metaB : FieldMeta := { type := .int, default := .vStr "abc" }

/-- A string field with default "z" (C4 witness, the spec's §8 scenario). -/
def c4metaW : FieldMeta := { type := .str, default := .vStr "z" }

/-- A required multi-choice field (C9 witness). -/
def c9meta : FieldMeta :=
  { choices := some [.vStr "x", .vStr "y"], multiple := true, required := true }

/-- The C1 scenario schema from the spec: one string field defaulting to "z". -/
def c1schema : List (String × GFieldConfig) :=
  [("x", { type := "string", default := some (.vStr "z") })]

/-- A concrete structured-completion service answering with a wrapped "ok". -/
def c6svc : List Msg → RespModel → PyVal :=
  fun _ _ => .obj [("value", .vStr "ok")]

/-! ## Helper lemmas -/

theorem alookup_mem {α : Type} {l : List (String × α)} {k : String} {v : α}
    (h : alookup l k = some v) : (k, v) ∈ l := by
  induction l with
  | nil => simp [alookup] at h
  | cons kv rest ih =>
    obtain ⟨k0, v0⟩ := kv
    by_cases hk : k0 = k
    · subst hk
      simp [alookup] at h
      subst h
      exact List.mem_cons_self _ _
    · simp only [alookup, if_neg hk] at h
      exact List.mem_cons_of_mem _ (ih h)

theorem alookup_dictSet {α : Type} (l : List (String × α)) (k : String) (v : α) (k' : String) :
    alookup (dictSet l k v) k' = if k = k' then some v else alookup l k' := by
  induction l with
  | nil => simp [dictSet, alookup]
  | cons kv rest ih =>
    obtain ⟨k0, v0⟩ := kv
    by_cases h0 : k0 = k
    · subst h0
      simp only [dictSet, if_pos rfl, alookup]
      by_cases hk : k0 = k' <;> simp [hk]
    · simp only [dictSet, if_neg h0, alookup, ih]
      by_cases hk : k0 = k'
      · subst hk
        have : ¬ (k = k0) := fun h => h0 h.symm
        simp [this]
      · simp [hk]

/-! ## C2: idempotence of _resolve_default -/

/-- C2 counterexample: with an environment whose value is itself a
placeholder-shaped string, resolving twice substitutes twice, so the claimed
idempotence for every environment fails at this concrete input. -/
theorem c2_counterexample :
    resolveDefault
        (resolveDefault (.vStr "$\x7bA\x7d") [("A", "$\x7bB\x7d"), ("B", "hello")])
        [("A", "$\x7bB\x7d"), ("B", "hello")] ≠
      resolveDefault (.vStr "$\x7bA\x7d") [("A", "$\x7bB\x7d"), ("B", "hello")] := by
  intro h
  have h1 : Value.vStr "hello" = Value.vStr "$\x7bB\x7d" := h
  have h2 : ("hello" : String) = "$\x7bB\x7d" := Value.vStr.inj h1
  exact absurd h2 (by decide)

/-- C2 (amended): _resolve_default is idempotent for every default value and
every environment none of whose values is itself a placeholder-shaped
string. -/
theorem c2_amended (d : Value) (env : List (String × String))
    (h : ∀ kv ∈ env, isPlaceholder kv.2 = false) :
    resolveDefault (resolveDefault d env) env = resolveDefault d env := by
  cases d with
  | vStr s =>
    by_cases hp : isPlaceholder s
    · rw [show resolveDefault (.vStr s) env =
          (match alookup env (placeholderVarName s) with
            | some v => .vStr v
            | none => Value.vNone) from by simp [resolveDefault, hp]]
      cases halo : alookup env (placeholderVarName s) with
      | some v =>
        have hv : isPlaceholder v = false := h _ (alookup_mem halo)
        simp [resolveDefault, hv]
      | none => rfl
    · simp [resolveDefault, hp]
  | vNone => rfl
  | vInt n => rfl
  | vBool b => rfl
  | vPath p => rfl
  | vList xs => rfl

/-- Closed witness for the amended C2 at a concrete placeholder and a
placeholder-free environment. -/
theorem c2_amended_witness :
    (∀ kv ∈ ([("A", "x")] : List (String × String)), isPlaceholder kv.2 = false) ∧
    resolveDefault (resolveDefault (.vStr "$\x7bA\x7d") [("A", "x")]) [("A", "x")] =
      resolveDefault (.vStr "$\x7bA\x7d") [("A", "x")] :=
  ⟨by decide, c2_amended (.vStr "$\x7bA\x7d") [("A", "x")] (by decide)⟩

/-! ## C5: the integer-required scenario -/

/-- C5 counterexample: with schema `n : integer, required` and raw input
`""`, collection aborts with the ValueError of `int("")`, whose message is
not the claimed "Parameter 'n' is required.". -/
theorem c5_counterexample :
    promptForParams [("n", c5meta)] [] [.text (some "")] =
      some (.error (.valueError (intInvalidLiteral ""))) ∧
    intInvalidLiteral "" ≠ requiredMsg "n" :=
  ⟨rfl, by decide⟩

/-- C5 (amended): raw input "42" collects to 42; raw input "" (no default)
aborts the collection with the type-coercion ValueError raised by `int` on
the empty default string — not with the required-field message — and no
partial result is produced. -/
theorem c5_amended :
    promptForParams [("n", c5meta)] [] [.text (some "42")] =
      some (.ok [("n", .vInt 42)]) ∧
    promptForParams [("n", c5meta)] [] [.text (some "")] =
      some (.error (.valueError (intInvalidLiteral ""))) :=
  ⟨rfl, rfl⟩

/-! ## C6: ask with no configured schema -/

/-- C6 counterexample: with no response schema configured, ask does not
fail: it installs the str wrapper, calls the service and returns the
unwrapped value. -/
theorem c6_counterexample :
    (ask c6svc {} "hi").1 = .vStr "ok" ∧
    (ask c6svc {} "hi").2.responseModel = some (wrapPrimitiveInModel .str) ∧
    (ask c6svc {} "hi").2.wrappedValue = true :=
  ⟨rfl, rfl, rfl⟩

/-- C6 (amended): if no response schema has been configured before ask, the
call does not raise a configuration error: it silently defaults the
response model to the single-field str wrapper (wrapped flag set), invokes
the completion service with that model, and returns the unwrapped `value`
field of the service's answer. -/
theorem c6_amended (svc : List Msg → RespModel → PyVal) (st : AIClientState)
    (prompt : String) (h : st.responseModel = none) :
    (ask svc st prompt).2.responseModel = some (wrapPrimitiveInModel .str) ∧
    (ask svc st prompt).2.wrappedValue = true ∧
    (ask svc st prompt).1 =
      (match (svc (messagesOut (st.msgs ++ [⟨.user, prompt⟩]))
          (wrapPrimitiveInModel .str)).attr "value" with
        | some v => v
        | none => .vNone) := by
  refine ⟨?_, ?_, ?_⟩ <;> simp [ask, h]

/-- Closed witness for the amended C6 on a fresh client and a concrete
service. -/
theorem c6_amended_witness :
    (({} : AIClientState).responseModel = none) ∧
    (ask c6svc {} "hello").1 =
      (match (c6svc (messagesOut (([] : List Msg) ++ [⟨Role.user, "hello"⟩]))
          (wrapPrimitiveInModel .str)).attr "value" with
        | some v => v
        | none => PyVal.vNone) :=
  ⟨rfl, (c6_amended c6svc {} "hello" rfl).2.2⟩

/-! ## C7: schema wrapping and unwrapping in ask -/

/-- C7: a BaseModel target set via with_schema is used as the response
model unchanged and the service result is returned as-is; a non-model
target is wrapped in the single-field model with fixed field name "value"
before the service call, and the wrapper's `value` field is returned. -/
theorem c7 (st : AIClientState) (svc : List Msg → RespModel → PyVal)
    (prompt : String) (jsonOnly : Bool) :
    (∀ m : RespModel,
      (withSchema st (.model m) jsonOnly).responseModel = some m ∧
      (withSchema st (.model m) jsonOnly).wrappedValue = false ∧
      (ask svc (withSchema st (.model m) jsonOnly) prompt).1 =
        svc (messagesOut ((withSchema st (.model m) jsonOnly).msgs ++ [⟨.user, prompt⟩])) m) ∧
    (∀ (h : PyHint) (inner : PyVal),
      (withSchema st (.hint h) jsonOnly).responseModel = some (wrapPrimitiveInModel h) ∧
      (withSchema st (.hint h) jsonOnly).wrappedValue = true ∧
      ((svc (messagesOut ((withSchema st (.hint h) jsonOnly).msgs ++ [⟨.user, prompt⟩]))
          (wrapPrimitiveInModel h)).attr "value" = some inner →
        (ask svc (withSchema st (.hint h) jsonOnly) prompt).1 = inner)) := by
  constructor
  · intro m
    exact ⟨rfl, rfl, rfl⟩
  · intro h inner
    refine ⟨rfl, rfl, fun hat => ?_⟩
    have e : (ask svc (withSchema st (.hint h) jsonOnly) prompt).1 =
        (match (svc (messagesOut ((withSchema st (.hint h) jsonOnly).msgs ++ [⟨.user, prompt⟩]))
            (wrapPrimitiveInModel h)).attr "value" with
          | some v => v
          | none => PyVal.vNone) := rfl
    rw [e, hat]

/-- Closed witness for C7 on a fresh client, a str hint and a concrete
service. -/
theorem c7_witness :
    (ask (fun _ _ => PyVal.obj [("value", .vStr "ok")])
        (withSchema {} (.hint .str) true) "p").1 = .vStr "ok" :=
  ((c7 {} (fun _ _ => PyVal.obj [("value", .vStr "ok")]) "p" true).2 .str (.vStr "ok")).2.2 rfl

/-! ## C9: cancelled multi-select -/

/-- C9: for a field with choices and multiple=true, a cancelled checkbox
(answer None) resolves to the empty list and collection succeeds, whatever
the required flag and validator. -/
theorem c9 (key : String) (meta : FieldMeta) (env : List (String × String))
    (c0 : Value) (csRest : List Value)
    (hc : meta.choices = some (c0 :: csRest)) (hm : meta.multiple = true) :
    promptForParams [(key, meta)] env [.multi none] = some (.ok [(key, .vList [])]) := by
  have hct : choicesTruthy meta = true := by simp [choicesTruthy, hc]
  simp [promptForParams, promptField, hct, hc, hm, promptChoices, Value.isNoneOrEmptyStr]

/-- Closed witness for C9: a required two-choice multi-select field whose
prompt is cancelled still collects the empty list. -/
theorem c9_witness :
    c9meta.required = true ∧
    promptForParams [("k", c9meta)] [] [.multi none] = some (.ok [("k", .vList [])]) :=
  ⟨rfl, c9 "k" c9meta [] (.vStr "x") [.vStr "y"] rfl rfl⟩

/-! ## C1: the dynamic-form request_section flow -/

/-- C1 counterexample: the spec's own scenario (section "Extra", one string
field defaulting to "z", confirmed with no edits) harvests correctly and
restores the button label, but the section is NOT torn down: the frame is
still visible and the section still registered after the call returns. -/
theorem c1_counterexample :
    (getAdditionalParams {} "Extra" c1schema none []).1 = [("x", .vStr "z")] ∧
    (getAdditionalParams {} "Extra" c1schema none []).2.runBtnText = "Run Script" ∧
    (getAdditionalParams {} "Extra" c1schema none []).2.additionalVisible = true ∧
    (getAdditionalParams {} "Extra" c1schema none []).2.additionalWidgets =
      [("Extra", createFormOne c1schema none)] :=
  ⟨rfl, rfl, rfl, rfl⟩

theorem map_fst_editStep (e : String × GEdit) (ws : List (String × GWidget)) :
    (ws.map (fun kw => if kw.1 = e.1 then (kw.1, applyEdit kw.2 e.2) else kw)).map Prod.fst =
      ws.map Prod.fst := by
  induction ws with
  | nil => rfl
  | cons kw rest ih =>
    simp only [List.map_cons, ih, List.cons.injEq, and_true]
    by_cases h : kw.1 = e.1 <;> simp [h]

theorem applyEdits_keys (edits : List (String × GEdit)) :
    ∀ ws : List (String × GWidget),
      (applyEdits edits ws).map Prod.fst = ws.map Prod.fst := by
  induction edits with
  | nil => intro ws; rfl
  | cons e es ih =>
    intro ws
    have e1 : applyEdits (e :: es) ws =
        applyEdits es (ws.map fun kw => if kw.1 = e.1 then (kw.1, applyEdit kw.2 e.2) else kw) :=
      rfl
    rw [e1, ih, map_fst_editStep]

theorem getGroupedValuesOne_keys (ws : List (String × GWidget)) :
    (getGroupedValuesOne ws).map Prod.fst = ws.map Prod.fst := by
  induction ws with
  | nil => rfl
  | cons kw rest ih =>
    simp only [getGroupedValuesOne, List.map_cons] at ih ⊢
    exact congrArg _ ih

theorem createFormOne_keys (schema : List (String × GFieldConfig))
    (options : Option (List (String × List String))) :
    (createFormOne schema options).map Prod.fst = schema.map Prod.fst := by
  induction schema with
  | nil => rfl
  | cons kc rest ih =>
    simp only [createFormOne, List.map_cons] at ih ⊢
    exact congrArg _ ih

/-- C1 (amended): get_additional_params harvests every field of the
section (the returned mapping has exactly the schema's keys, each holding
the typed harvest of the user-edited widget), clears the waiting flag and
restores the Run button label — but it does not tear down or hide the
section: the frame stays visible and the edited section stays registered
under its title until the next execute_script run clears it. -/
theorem c1_amended (st : AppState) (title : String)
    (schema : List (String × GFieldConfig)) (options : Option (List (String × List String)))
    (edits : List (String × GEdit)) :
    (getAdditionalParams st title schema options edits).1 =
      getGroupedValuesOne (applyEdits edits (createFormOne schema options)) ∧
    ((getAdditionalParams st title schema options edits).1).map Prod.fst =
      schema.map Prod.fst ∧
    (getAdditionalParams st title schema options edits).2.runBtnText = "Run Script" ∧
    (getAdditionalParams st title schema options edits).2.waitingForAdditional = false ∧
    (getAdditionalParams st title schema options edits).2.additionalVisible = true ∧
    alookup (getAdditionalParams st title schema options edits).2.additionalWidgets title =
      some (applyEdits edits (createFormOne schema options)) := by
  refine ⟨rfl, ?_, rfl, rfl, rfl, ?_⟩
  · have e1 : (getAdditionalParams st title schema options edits).1 =
        getGroupedValuesOne (applyEdits edits (createFormOne schema options)) := rfl
    rw [e1, getGroupedValuesOne_keys, applyEdits_keys, createFormOne_keys]
  · have e2 : (getAdditionalParams st title schema options edits).2.additionalWidgets =
        dictSet st.additionalWidgets title (applyEdits edits (createFormOne schema options)) :=
      rfl
    rw [e2, alookup_dictSet]
    simp

/-! ## C10: normal form of the messages property -/

theorem filter_isSystem_exampleMsgs (xs : List String) :
    (exampleMsgs xs).filter Msg.isSystem = [] := by
  induction xs with
  | nil => rfl
  | cons e rest ih => simp [exampleMsgs, List.filter, Msg.isSystem, ih]

theorem applyOps_filter_isSystem (ops : List BuilderOp) :
    ∀ st : AIClientState,
      (applyOps st ops).msgs.filter Msg.isSystem =
        st.msgs.filter Msg.isSystem ++
          (instructionTexts ops).map (fun t => (⟨Role.system, t⟩ : Msg)) := by
  induction ops with
  | nil => intro st; simp [applyOps, instructionTexts]
  | cons op rest ih =>
    intro st
    cases op with
    | instructions t =>
      have e : applyOps st (.instructions t :: rest) = applyOps (withInstructions st t) rest := rfl
      rw [e, ih, withInstructions]
      simp [instructionTexts, List.filter_append, List.filter, Msg.isSystem]
    | examples xs =>
      have e : applyOps st (.examples xs :: rest) = applyOps (withExamples st xs) rest := rfl
      rw [e, ih, withExamples]
      simp [instructionTexts, List.filter_append, filter_isSystem_exampleMsgs]
    | doc n c =>
      have e : applyOps st (.doc n c :: rest) = applyOps (withDoc st n c) rest := rfl
      rw [e, ih, withDoc]
      simp [instructionTexts, List.filter_append, List.filter, Msg.isSystem]
    | schema t j =>
      have e : applyOps st (.schema t j :: rest) = applyOps (withSchema st t j) rest := rfl
      rw [e, ih, withSchema]
      simp [instructionTexts, List.filter_append, List.filter, Msg.isSystem]

/-- C10: for every sequence of builder calls on a fresh client, the
messages property yields the normalized transcript: one merged system
message first (its content the instruction texts joined by a blank line, in
insertion order) exactly when some instructions were added, followed by all
non-system messages in their original relative order. -/
theorem c10_messages_normalized (ops : List BuilderOp) :
    messagesOut (applyOps {} ops).msgs =
      (if instructionTexts ops = [] then []
       else [⟨Role.system, String.intercalate "\n\n" (instructionTexts ops)⟩]) ++
      (applyOps {} ops).msgs.filter (fun m => !m.isSystem) := by
  have hsys : (applyOps {} ops).msgs.filter Msg.isSystem =
      (instructionTexts ops).map (fun t => (⟨Role.system, t⟩ : Msg)) := by
    simpa using applyOps_filter_isSystem ops {}
  have hcontents : ((applyOps {} ops).msgs.filter Msg.isSystem).map Msg.content =
      instructionTexts ops := by
    rw [hsys, List.map_map]
    exact List.map_id _
  simp only [messagesOut, hcontents]
  cases htexts : instructionTexts ops with
  | nil => simp
  | cons a as => simp

/-! ## C8: merge semantics of execute_script -/

theorem lastLookup_acc (k : String) :
    ∀ (l : List (String × Value)) (acc : Option Value),
      l.foldl (fun a kv => if kv.1 = k then some kv.2 else a) acc =
        match l.foldl (fun a kv => if kv.1 = k then some kv.2 else a) none with
        | some v => some v
        | none => acc := by
  intro l
  induction l with
  | nil => intro acc; rfl
  | cons kv rest ih =>
    intro acc
    rw [List.foldl_cons, List.foldl_cons,
      ih (if kv.1 = k then some kv.2 else acc),
      ih (if kv.1 = k then some kv.2 else none)]
    cases hF : rest.foldl (fun a kv => if kv.1 = k then some kv.2 else a) none with
    | some v => rfl
    | none => by_cases hk : kv.1 = k <;> simp [hk]

theorem lastLookup_cons (kv : String × Value) (rest : List (String × Value)) (k : String) :
    lastLookup (kv :: rest) k =
      match lastLookup rest k with
      | some v => some v
      | none => if kv.1 = k then some kv.2 else none := by
  have e : lastLookup (kv :: rest) k =
      rest.foldl (fun a kv => if kv.1 = k then some kv.2 else a)
        (if kv.1 = k then some kv.2 else none) := rfl
  have e3 : rest.foldl (fun a kv => if kv.1 = k then some kv.2 else a) none =
      lastLookup rest k := rfl
  rw [e, lastLookup_acc, e3]

theorem alookup_dictUpdate (b : List (String × Value)) :
    ∀ (a : List (String × Value)) (k : String),
      alookup (dictUpdate a b) k =
        match lastLookup b k with
        | some v => some v
        | none => alookup a k := by
  induction b with
  | nil => intro a k; rfl
  | cons kv rest ih =>
    intro a k
    have e : dictUpdate a (kv :: rest) = dictUpdate (dictSet a kv.1 kv.2) rest := rfl
    rw [e, ih, lastLookup_cons, alookup_dictSet]
    cases lastLookup rest k with
    | some v => rfl
    | none => by_cases hk : kv.1 = k <;> simp [hk]

theorem sectionsLookup_acc (k : String) :
    ∀ (groups : List (String × List (String × Value))) (acc : Option Value),
      groups.foldl (fun a g =>
          match lastLookup g.2 k with
          | some v => some v
          | none => a) acc =
        match groups.foldl (fun a g =>
            match lastLookup g.2 k with
            | some v => some v
            | none => a) none with
        | some v => some v
        | none => acc := by
  intro groups
  induction groups with
  | nil => intro acc; rfl
  | cons g gs ih =>
    intro acc
    rw [List.foldl_cons, List.foldl_cons,
      ih (match lastLookup g.2 k with | some v => some v | none => acc),
      ih (match lastLookup g.2 k with | some v => some v | none => none)]
    cases hF : gs.foldl (fun a g =>
        match lastLookup g.2 k with
        | some v => some v
        | none => a) none with
    | some v => rfl
    | none => cases lastLookup g.2 k <;> rfl

theorem sectionsLookup_cons (g : String × List (String × Value))
    (gs : List (String × List (String × Value))) (k : String) :
    sectionsLookup (g :: gs) k =
      match sectionsLookup gs k with
      | some v => some v
      | none => lastLookup g.2 k := by
  have e : sectionsLookup (g :: gs) k =
      gs.foldl (fun a g =>
          match lastLookup g.2 k with
          | some v => some v
          | none => a)
        (match lastLookup g.2 k with | some v => some v | none => none) := rfl
  have e3 : gs.foldl (fun a g =>
      match lastLookup g.2 k with
      | some v => some v
      | none => a) none = sectionsLookup gs k := rfl
  rw [e, sectionsLookup_acc, e3]
  cases sectionsLookup gs k with
  | some v => rfl
  | none => cases lastLookup g.2 k <;> rfl

theorem lastLookup_eq_none_of_not_mem {l : List (String × Value)} {k : String}
    (h : k ∉ l.map Prod.fst) : lastLookup l k = none := by
  induction l with
  | nil => rfl
  | cons kv rest ih =>
    rw [lastLookup_cons]
    simp only [List.map_cons, List.mem_cons] at h
    push_neg at h
    rw [ih h.2]
    have hk : ¬ kv.1 = k := fun hk => h.1 hk.symm
    simp [hk]

theorem lastLookup_eq_alookup {l : List (String × Value)}
    (h : (l.map Prod.fst).Nodup) : ∀ k, lastLookup l k = alookup l k := by
  induction l with
  | nil => intro k; rfl
  | cons kv rest ih =>
    intro k
    simp only [List.map_cons, List.nodup_cons] at h
    have halo : alookup (kv :: rest) k = if kv.1 = k then some kv.2 else alookup rest k := rfl
    rw [lastLookup_cons, ih h.2, halo]
    by_cases hk : kv.1 = k
    · have hnm : k ∉ rest.map Prod.fst := hk ▸ h.1
      have hres : alookup rest k = none := by
        rw [← ih h.2 k]
        exact lastLookup_eq_none_of_not_mem hnm
      simp [hres, hk]
    · cases halo2 : alookup rest k with
      | some v => simp [halo2, hk]
      | none => simp [halo2, hk]

theorem mem_keys_dictSet {l : List (String × Value)} {k : String} {v : Value} {x : String}
    (h : x ∈ (dictSet l k v).map Prod.fst) : x ∈ l.map Prod.fst ∨ x = k := by
  induction l with
  | nil =>
    simp [dictSet] at h
    exact Or.inr h
  | cons kv rest ih =>
    by_cases h0 : kv.1 = k
    · rw [show dictSet (kv :: rest) k v = (k, v) :: rest from by
        obtain ⟨k0, v0⟩ := kv; simp_all [dictSet]] at h
      simp only [List.map_cons, List.mem_cons] at h ⊢
      rcases h with h | h
      · exact Or.inr h
      · exact Or.inl (Or.inr h)
    · rw [show dictSet (kv :: rest) k v = kv :: dictSet rest k v from by
        obtain ⟨k0, v0⟩ := kv; simp_all [dictSet]] at h
      simp only [List.map_cons, List.mem_cons] at h ⊢
      rcases h with h | h
      · exact Or.inl (Or.inl h)
      · rcases ih h with h' | h'
        · exact Or.inl (Or.inr h')
        · exact Or.inr h'

theorem nodup_keys_dictSet {l : List (String × Value)} (k : String) (v : Value)
    (h : (l.map Prod.fst).Nodup) : ((dictSet l k v).map Prod.fst).Nodup := by
  induction l with
  | nil => simp [dictSet]
  | cons kv rest ih =>
    simp only [List.map_cons, List.nodup_cons] at h
    by_cases h0 : kv.1 = k
    · rw [show dictSet (kv :: rest) k v = (k, v) :: rest from by
        obtain ⟨k0, v0⟩ := kv; simp_all [dictSet]]
      simp only [List.map_cons, List.nodup_cons]
      exact ⟨h0 ▸ h.1, h.2⟩
    · rw [show dictSet (kv :: rest) k v = kv :: dictSet rest k v from by
        obtain ⟨k0, v0⟩ := kv; simp_all [dictSet]]
      simp only [List.map_cons, List.nodup_cons]
      refine ⟨fun hin => ?_, ih h.2⟩
      rcases mem_keys_dictSet hin with h' | h'
      · exact h.1 h'
      · exact h0 h'

theorem nodup_keys_dictUpdate (b : List (String × Value)) :
    ∀ a : List (String × Value),
      (a.map Prod.fst).Nodup → ((dictUpdate a b).map Prod.fst).Nodup := by
  induction b with
  | nil => intro a h; exact h
  | cons kv rest ih =>
    intro a h
    exact ih (dictSet a kv.1 kv.2) (nodup_keys_dictSet kv.1 kv.2 h)

theorem nodup_keys_flat (groups : List (String × List (String × Value))) :
    ∀ acc : List (String × Value),
      (acc.map Prod.fst).Nodup →
      ((groups.foldl (fun a g => dictUpdate a g.2) acc).map Prod.fst).Nodup := by
  induction groups with
  | nil => intro acc h; exact h
  | cons g gs ih =>
    intro acc h
    exact ih (dictUpdate acc g.2) (nodup_keys_dictUpdate g.2 acc h)

theorem alookup_flat (groups : List (String × List (String × Value))) (k : String) :
    ∀ acc : List (String × Value),
      alookup (groups.foldl (fun a g => dictUpdate a g.2) acc) k =
        match sectionsLookup groups k with
        | some v => some v
        | none => alookup acc k := by
  induction groups with
  | nil => intro acc; rfl
  | cons g gs ih =>
    intro acc
    rw [List.foldl_cons, ih, sectionsLookup_cons, alookup_dictUpdate]
    cases sectionsLookup gs k with
    | some v => rfl
    | none => cases lastLookup g.2 k <;> rfl

theorem alookup_mainParams (configSchema : List (String × GFieldConfig))
    (mainValues : List (String × Value)) (k : String) :
    alookup (configSchema.map (fun kc =>
        (kc.1, match alookup mainValues kc.1 with
          | some v => v
          | none => match kc.2.default with | some d => d | none => Value.vStr ""))) k =
      match alookup configSchema k with
      | some conf =>
        some (match alookup mainValues k with
          | some v => v
          | none => match conf.default with | some d => d | none => Value.vStr "")
      | none => none := by
  induction configSchema with
  | nil => rfl
  | cons kc rest ih =>
    simp only [List.map_cons, alookup]
    by_cases hk : kc.1 = k
    · subst hk; simp
    · simp [hk, ih]

/-- C8: the parameter mapping execute_script passes to the script gives,
for each key, the value of the last additional section mentioning it;
failing that, for a main-schema key the harvested main value or — when the
main harvest lacks the key — the main-schema default (empty string when no
default is declared); keys known to no section are absent. -/
theorem c8_merge_semantics (configSchema : List (String × GFieldConfig))
    (mainWidgets : List (String × GWidget))
    (additionalWidgets : List (String × List (String × GWidget))) (k : String) :
    alookup (executeScriptParams configSchema mainWidgets additionalWidgets) k =
      match sectionsLookup (getGroupedValues additionalWidgets) k with
      | some v => some v
      | none =>
        match alookup configSchema k with
        | some conf =>
          some (match alookup (getGroupedValuesOne mainWidgets) k with
            | some v => v
            | none => match conf.default with | some d => d | none => Value.vStr "")
        | none => none := by
  have e : executeScriptParams configSchema mainWidgets additionalWidgets =
      dictUpdate
        (configSchema.map fun kc =>
          (kc.1, match alookup (getGroupedValuesOne mainWidgets) kc.1 with
            | some v => v
            | none => match kc.2.default with | some d => d | none => Value.vStr ""))
        ((getGroupedValues additionalWidgets).foldl (fun acc g => dictUpdate acc g.2) []) := rfl
  rw [e, alookup_dictUpdate]
  have hnodup : (((getGroupedValues additionalWidgets).foldl
      (fun acc g => dictUpdate acc g.2) []).map Prod.fst).Nodup :=
    nodup_keys_flat _ [] (by simp)
  rw [lastLookup_eq_alookup hnodup, alookup_flat]
  have hnone : (alookup ([] : List (String × Value)) k) = none := rfl
  rw [hnone, alookup_mainParams]
  cases sectionsLookup (getGroupedValues additionalWidgets) k with
  | some v => rfl
  | none => cases alookup configSchema k <;> rfl

/-! ## C4: empty raw input on text-like fields -/

/-- C4 counterexample: through prompt_for_params the text prompt's default
is always a string, so empty raw input on a required integer field with no
default passes the inline validator (it is not a "required field"
validation failure) and the collection instead aborts with the coercion
error of `int("")`; moreover with default "abc" the coercion IS attempted
on the default, aborting with `int("abc")`'s error where the claim promises
the untouched default back. -/
theorem c4_counterexample :
    typeValidatorCheck (some "") .int true none "" = .ok () ∧
    promptForParams [("m", c4metaA)] [] [.text (some "")] =
      some (.error (.valueError (intInvalidLiteral ""))) ∧
    promptForParams [("d", c4metaB)] [] [.text (some "")] =
      some (.error (.valueError (intInvalidLiteral "abc"))) :=
  ⟨rfl, rfl, rfl⟩

/-- C4 (amended): for a text-like field (string or integer type, falsy
choices) reached through prompt_for_params, empty raw input is never an
inline validation failure — the prompt always receives a string default
(the empty string when the resolved default is null) and returns it — and
prompt_for_params then applies the declared type's coercion to that default
string; a required field is only caught afterwards, by the final
required-value check, when the coerced value is null or the empty string. -/
theorem c4_amended (k : String) (meta : FieldMeta) (env : List (String × String))
    (hτ : meta.type = PType.str ∨ meta.type = PType.int)
    (hch : choicesTruthy meta = false) :
    typeValidatorCheck
        (some (if (resolveDefault meta.default env).isNone then ""
          else pyStr (resolveDefault meta.default env)))
        meta.type meta.required meta.validator "" = .ok () ∧
    promptForParams [(k, meta)] env [.text (some "")] =
      some (match pyCallType meta.type
          (.vStr (if (resolveDefault meta.default env).isNone then ""
            else pyStr (resolveDefault meta.default env))) with
        | .error e => .error e
        | .ok v =>
          if meta.required ∧ v.isNoneOrEmptyStr then
            .error (.valueError (requiredNotProvidedMsg k))
          else .ok [(k, v)]) := by
  have hb : ¬ meta.type = PType.bool := by rcases hτ with h | h <;> simp [h]
  have hp : ¬ meta.type = PType.path := by rcases hτ with h | h <;> simp [h]
  have hval : typeValidatorCheck
      (some (if (resolveDefault meta.default env).isNone then ""
        else pyStr (resolveDefault meta.default env)))
      meta.type meta.required meta.validator "" = .ok () := by
    simp [typeValidatorCheck]
  refine ⟨hval, ?_⟩
  have e2 : promptField k meta env (.text (some "")) =
      some (pyCallType meta.type
        (.vStr (if (resolveDefault meta.default env).isNone then ""
          else pyStr (resolveDefault meta.default env)))) := by
    simp only [promptField, hch, hb, hp, false_and, and_false, if_false, promptText,
      if_neg (by simp [hch] : ¬ (choicesTruthy meta = true)), hval]
    simp
  have e1 : promptForParams [(k, meta)] env [.text (some "")] =
      (match promptField k meta env (.text (some "")) with
        | none => none
        | some (.error e) => some (.error e)
        | some (.ok v) =>
          if meta.required ∧ v.isNoneOrEmptyStr then
            some (.error (.valueError (requiredNotProvidedMsg k)))
          else some (.ok [(k, v)])) := rfl
  rw [e1, e2]
  cases hres : pyCallType meta.type
      (.vStr (if (resolveDefault meta.default env).isNone then ""
        else pyStr (resolveDefault meta.default env))) with
  | error e => rfl
  | ok v =>
    by_cases hreq : meta.required ∧ v.isNoneOrEmptyStr
    · simp [hreq]
    · simp [hreq]

/-- Closed witness for the amended C4: a string field with default "z" and
empty raw input collects the default (the spec's §8 scenario value). -/
theorem c4_amended_witness :
    (c4metaW.type = PType.str ∨ c4metaW.type = PType.int) ∧
    choicesTruthy c4metaW = false ∧
    promptForParams [("x", c4metaW)] [] [.text (some "")] =
      some (.ok [("x", .vStr "z")]) :=
  ⟨Or.inl rfl, rfl, (c4_amended "x" c4metaW [] (Or.inl rfl) rfl).2⟩

/-! ## C3: the script navigator -/

theorem splitOnSlash_ne_nil (cs : List Char) : ∀ acc, splitOnSlash acc cs ≠ [] := by
  induction cs with
  | nil => intro acc; simp [splitOnSlash]
  | cons c rest ih =>
    intro acc
    rw [splitOnSlash]
    by_cases hc : c = '/'
    · simp [hc]
    · rw [if_neg hc]
      exact ih _

theorem partsOfPath_ne_nil (path : String) : partsOfPath path ≠ [] :=
  splitOnSlash_ne_nil _ _

theorem scrAt_navigate {t : Node} {q : List String} {c : Node}
    (h : navigate t q = some c) : scrAt t q = c.isScript := by
  simp [scrAt, h]

theorem scrAt_eq_true_iff {t : Node} {q : List String} :
    scrAt t q = true ↔ ∃ c, navigate t q = some c ∧ c.isScript = true := by
  cases h : navigate t q <;> simp [scrAt, h]

theorem scrAt_cons_some {t : Node} {x : String} {c : Node}
    (h : alookup t.children x = some c) (q : List String) :
    scrAt t (x :: q) = scrAt c q := by
  simp [scrAt, navigate, h]

theorem scrAt_cons_none {t : Node} {x : String}
    (h : alookup t.children x = none) (q : List String) :
    scrAt t (x :: q) = false := by
  simp [scrAt, navigate, h]

theorem scrAt_mk_cons (nm : String) (sc : Bool) (ch : List (String × Node))
    (x : String) (q : List String) :
    scrAt (Node.mk nm sc ch) (x :: q) =
      (match alookup ch x with
        | some c => scrAt c q
        | none => false) := by
  cases halo : alookup ch x with
  | some c => simp [scrAt, navigate, Node.children, halo]
  | none => simp [scrAt, navigate, Node.children, halo]

theorem scrAt_promote (c : Node) (q : List String) :
    scrAt (promote c) q = (if q = [] then true else scrAt c q) := by
  cases c with
  | mk nm sc ch =>
    cases q with
    | nil => rfl
    | cons y ys =>
      rw [if_neg (by simp)]
      show scrAt (Node.mk nm true ch) (y :: ys) = scrAt (Node.mk nm sc ch) (y :: ys)
      rw [scrAt_mk_cons, scrAt_mk_cons]

theorem scrAt_insertParts (ps : List String) :
    ∀ (t : Node) (q : List String),
      scrAt (insertParts ps t) q = true ↔
        (scrAt t q = true ∨ (q = ps ∧ ps ≠ [])) := by
  induction ps with
  | nil =>
    intro t q
    simp [insertParts]
  | cons p rest ih =>
    intro t q
    obtain ⟨nm, sc, ch⟩ := t
    have hins : insertParts (p :: rest) (Node.mk nm sc ch) =
        Node.mk nm sc (dictSet ch p (insertParts rest
          (match alookup ch p with
            | some c => if rest.isEmpty then promote c else c
            | none => Node.mk p rest.isEmpty []))) := rfl
    rw [hins]
    cases q with
    | nil =>
      constructor
      · intro h
        exact Or.inl h
      · rintro (h | ⟨h, -⟩)
        · exact h
        · cases h
    | cons x qrest =>
      rw [scrAt_mk_cons, scrAt_mk_cons, alookup_dictSet]
      by_cases hx : p = x
      · rw [if_pos hx]
        subst hx
        show scrAt (insertParts rest
            (match alookup ch p with
              | some c => if rest.isEmpty then promote c else c
              | none => Node.mk p rest.isEmpty [])) qrest = true ↔ _
        rw [ih]
        cases halo : alookup ch p with
        | some c =>
          cases rest with
          | nil =>
            cases qrest with
            | nil => simp [scrAt_promote]
            | cons y ys => simp [scrAt_promote]
          | cons r rs => simp
        | none =>
          cases rest with
          | nil =>
            cases qrest with
            | nil => simp [scrAt, navigate, Node.isScript]
            | cons y ys => simp [scrAt_mk_cons, alookup]
          | cons r rs =>
            cases qrest with
            | nil => simp [scrAt, navigate, Node.isScript]
            | cons y ys => simp [scrAt_mk_cons, alookup]
      · rw [if_neg hx]
        have hxp : ¬ (x :: qrest = p :: rest) := by
          intro h
          injection h with h1 _
          exact hx h1.symm
        simp [hxp]

theorem scrAt_foldTree (choices : List String) :
    ∀ (t : Node) (q : List String),
      scrAt (choices.foldl (fun a path => insertParts (partsOfPath path) a) t) q = true ↔
        (scrAt t q = true ∨ ∃ p ∈ choices, partsOfPath p = q) := by
  induction choices with
  | nil => intro t q; simp
  | cons c cs ih =>
    intro t q
    rw [List.foldl_cons, ih, scrAt_insertParts]
    constructor
    · rintro ((h | ⟨hq, -⟩) | ⟨p, hp, hq⟩)
      · exact Or.inl h
      · exact Or.inr ⟨c, List.mem_cons_self _ _, hq.symm⟩
      · exact Or.inr ⟨p, List.mem_cons_of_mem _ hp, hq⟩
    · rintro (h | ⟨p, hp, hq⟩)
      · exact Or.inl (Or.inl h)
      · rcases List.mem_cons.mp hp with rfl | hp'
        · exact Or.inl (Or.inr ⟨hq.symm, partsOfPath_ne_nil _⟩)
        · exact Or.inr ⟨p, hp', hq⟩

theorem scrAt_initTree (q : List String) : scrAt (Node.mk "" false []) q = false := by
  cases q with
  | nil => rfl
  | cons x xs =>
    rw [scrAt_mk_cons]
    rfl

theorem scrAt_buildTree (choices : List String) (q : List String) :
    scrAt (buildTree choices) q = true ↔ ∃ p ∈ choices, partsOfPath p = q := by
  rw [show buildTree choices =
      choices.foldl (fun a path => insertParts (partsOfPath path) a) (Node.mk "" false []) from rfl,
    scrAt_foldTree]
  simp [scrAt_initTree]

theorem navigate_cons_some {t : Node} {n : String} {rest : List String} {final : Node}
    (h : navigate t (n :: rest) = some final) :
    ∃ c, alookup t.children n = some c ∧ navigate c rest = some final := by
  cases halo : alookup t.children n with
  | some c =>
    refine ⟨c, rfl, ?_⟩
    rw [navigate, halo] at h
    exact h
  | none =>
    rw [navigate, halo] at h
    cases h

theorem runAsk_navActs :
    ∀ (ps : List String) (cur : Node) (st : List Node) (acc : List String) (final : Node),
      ps ≠ [] →
      navigate cur ps = some final → final.isScript = true →
      (∀ q, initialSeg q ps = true → q ≠ [] → q ≠ ps → scrAt cur q = false) →
      runAsk ⟨cur, st, acc⟩ (navActsFor ps) =
        some (some (String.intercalate "/" (acc ++ ps))) := by
  intro ps
  induction ps with
  | nil => intro _ _ _ _ hne _ _ _; exact absurd rfl hne
  | cons n rest ih =>
    intro cur st acc final _ hnav hscript hmid
    obtain ⟨c, hc, hcr⟩ := navigate_cons_some hnav
    cases rest with
    | nil =>
      have hcf : c = final := by
        rw [navigate] at hcr
        exact Option.some.inj hcr
      subst hcf
      simp [navActsFor, runAsk, navStep, hc, hscript]
    | cons r rs =>
      have hnavn : navigate cur [n] = some c := by
        rw [navigate, hc]
        rfl
      have hcs : c.isScript = false := by
        rw [← scrAt_navigate hnavn]
        exact hmid [n] (by simp [initialSeg]) (by simp) (by simp)
      have hstep : runAsk ⟨cur, st, acc⟩ (navActsFor (n :: r :: rs)) =
          runAsk ⟨c, cur :: st, acc ++ [n]⟩ (navActsFor (r :: rs)) := by
        simp [navActsFor, runAsk, navStep, hc, hcs]
      rw [hstep]
      have hmid' : ∀ q, initialSeg q (r :: rs) = true → q ≠ [] → q ≠ r :: rs →
          scrAt c q = false := by
        intro q hq hqne hqns
        have h1 := hmid (n :: q) (by simp [initialSeg, hq]) (by simp)
          (by intro hcontra; exact hqns (List.cons.injEq .. ▸ hcontra).2)
        rw [scrAt_cons_some hc] at h1
        exact h1
      have := ih c (cur :: st) (acc ++ [n]) final (by simp) hcr hscript hmid'
      rw [this]
      simp

/-- C3 (amended): in the tree built from a list of slash-delimited paths,
a node's is_script flag is true exactly when its position is the full part
list of some input path; and provided no input path's part list is a proper
initial segment of another's, every input path is reachable in ask by its
directory-selects followed by the final script-select, returning the
slash-joined parts.  (Without that proviso the claim fails: a path that is
also a prefix of a longer one is promoted to a script and no longer
offered as a directory, see the counterexample.) -/
theorem c3_amended (choices : List String)
    (hfree : ∀ p ∈ choices, ∀ p' ∈ choices,
      initialSeg (partsOfPath p) (partsOfPath p') = true → partsOfPath p = partsOfPath p') :
    (∀ q c, navigate (buildTree choices) q = some c →
      (c.isScript = true ↔ ∃ p ∈ choices, partsOfPath p = q)) ∧
    (∀ p ∈ choices,
      runAsk (initNav (buildTree choices)) (navActsFor (partsOfPath p)) =
        some (some (String.intercalate "/" (partsOfPath p)))) := by
  constructor
  · intro q c hnav
    rw [← scrAt_buildTree choices q, scrAt_navigate hnav]
  · intro p hp
    have hscr : scrAt (buildTree choices) (partsOfPath p) = true :=
      (scrAt_buildTree choices _).mpr ⟨p, hp, rfl⟩
    obtain ⟨final, hnav, hfs⟩ := scrAt_eq_true_iff.mp hscr
    have hmid : ∀ q, initialSeg q (partsOfPath p) = true → q ≠ [] → q ≠ partsOfPath p →
        scrAt (buildTree choices) q = false := by
      intro q hq hne hnep
      cases hb : scrAt (buildTree choices) q with
      | false => rfl
      | true =>
        obtain ⟨p', hp', hq'⟩ := (scrAt_buildTree choices q).mp hb
        have heq := hfree p' hp' p hp (hq' ▸ hq)
        exact absurd (hq' ▸ heq) hnep
    have := runAsk_navActs (partsOfPath p) (buildTree choices) [] [] final
      (partsOfPath_ne_nil p) hnav hfs hmid
    simpa [initNav] using this

/-- Closed witness for the amended C3 on the spec's §8 scenario paths. -/
theorem c3_amended_witness :
    (∀ p ∈ ["a/b.py", "a/c.py", "d.py"], ∀ p' ∈ ["a/b.py", "a/c.py", "d.py"],
      initialSeg (partsOfPath p) (partsOfPath p') = true → partsOfPath p = partsOfPath p') ∧
    runAsk (initNav (buildTree ["a/b.py", "a/c.py", "d.py"]))
        (navActsFor (partsOfPath "a/b.py")) = some (some "a/b.py") := by
  refine ⟨by decide, ?_⟩
  have h := (c3_amended ["a/b.py", "a/c.py", "d.py"] (by decide)).2 "a/b.py" (by decide)
  have e : String.intercalate "/" (partsOfPath "a/b.py") = "a/b.py" := by decide
  rw [e] at h
  exact h

theorem navigate_append (ps qs : List String) :
    ∀ t : Node, navigate t (ps ++ qs) =
      (match navigate t ps with
        | some m => navigate m qs
        | none => none) := by
  induction ps with
  | nil => intro t; rfl
  | cons p ps' ih =>
    intro t
    show navigate t (p :: (ps' ++ qs)) = _
    cases halo : alookup t.children p with
    | some c => simp [navigate, halo, ih]
    | none => simp [navigate, halo]

theorem dirChain_snoc :
    ∀ (ps : List String) (root cur c : Node) (n : String),
      dirChain root ps = true → navigate root ps = some cur →
      alookup cur.children n = some c → c.isScript = false →
      dirChain root (ps ++ [n]) = true := by
  intro ps
  induction ps with
  | nil =>
    intro root cur c n _ hnav hc hcs
    have hrc : root = cur := by
      rw [navigate] at hnav
      exact Option.some.inj hnav
    subst hrc
    show dirChain root [n] = true
    simp [dirChain, hc, hcs]
  | cons p ps' ih =>
    intro root cur c n hch hnav hc hcs
    rw [List.cons_append]
    cases halo : alookup root.children p with
    | some m =>
      simp only [dirChain, halo, Bool.and_eq_true] at hch
      have hnav' : navigate m ps' = some cur := by
        simpa [navigate, halo] using hnav
      simp only [dirChain, halo, Bool.and_eq_true]
      exact ⟨hch.1, ih m cur c n hch.2 hnav' hc hcs⟩
    | none =>
      simp only [dirChain, halo] at hch
      cases hch

theorem dropLast_snoc {α : Type} (l : List α) (a : α) : (l ++ [a]).dropLast = l := by
  simp

theorem StackInv.nav {root cur : Node} {st : List Node} {ps : List String}
    (h : StackInv root cur st ps) : navigate root ps = some cur := by
  induction h with
  | nil => rfl
  | push h hc hcs ih =>
    rw [navigate_append, ih]
    simp [navigate, hc]

theorem StackInv.chain {root cur : Node} {st : List Node} {ps : List String}
    (h : StackInv root cur st ps) : dirChain root ps = true := by
  induction h with
  | nil => rfl
  | @push cur' st' ps' n c h hc hcs ih => exact dirChain_snoc ps' root cur' c n ih h.nav hc hcs

theorem runAsk_sound (root : Node) :
    ∀ (acts : List NavAction) (cur : Node) (st : List Node) (ps : List String) (p : String),
      StackInv root cur st ps →
      runAsk ⟨cur, st, ps⟩ acts = some (some p) →
      ∃ qs n m c, dirChain root qs = true ∧ navigate root qs = some m ∧
        alookup m.children n = some c ∧ c.isScript = true ∧
        p = String.intercalate "/" (qs ++ [n]) := by
  intro acts
  induction acts with
  | nil =>
    intro cur st ps p _ h
    cases h
  | cons a rest ih =>
    intro cur st ps p hinv hrun
    cases a with
    | cancel => simp [runAsk, navStep] at hrun
    | back =>
      cases hst : st with
      | nil =>
        subst hst
        simp [runAsk, navStep] at hrun
      | cons prev st' =>
        subst hst
        have hrun' : runAsk ⟨prev, st', ps.dropLast⟩ rest = some (some p) := by
          simpa [runAsk, navStep] using hrun
        cases hinv with
        | push h0 hc hcs =>
          rw [dropLast_snoc] at hrun'
          exact ih prev st' _ p h0 hrun'
    | selectDir n =>
      cases halo : alookup cur.children n with
      | none => simp [runAsk, navStep, halo] at hrun
      | some c =>
        cases hcs : c.isScript with
        | true => simp [runAsk, navStep, halo, hcs] at hrun
        | false =>
          have hrun' : runAsk ⟨c, cur :: st, ps ++ [n]⟩ rest = some (some p) := by
            simpa [runAsk, navStep, halo, hcs] using hrun
          exact ih c (cur :: st) (ps ++ [n]) p (StackInv.push hinv halo hcs) hrun'
    | selectScript n =>
      cases halo : alookup cur.children n with
      | none => simp [runAsk, navStep, halo] at hrun
      | some c =>
        cases hcs : c.isScript with
        | false => simp [runAsk, navStep, halo, hcs] at hrun
        | true =>
          have hp : p = String.intercalate "/" (ps ++ [n]) := by
            simp [runAsk, navStep, halo, hcs] at hrun
            exact hrun.symm
          exact ⟨ps, n, cur, c, hinv.chain, hinv.nav, halo, hcs, hp⟩

/-- C3 counterexample: with input paths ["a/b", "a"], the full input path
"a/b" is not reachable by any interaction with ask — inserting "a" as a
leaf promotes the existing directory node, which the menu then offers only
as a script — so the universally quantified reachability claim fails. -/
theorem c3_counterexample :
    ¬ ∃ acts : List NavAction,
      runAsk (initNav (buildTree ["a/b", "a"])) acts = some (some "a/b") := by
  rintro ⟨acts, hrun⟩
  obtain ⟨qs, n, m, c, hchain, hnav, hc, hcs, hp⟩ :=
    runAsk_sound (buildTree ["a/b", "a"]) acts _ _ _ _ StackInv.nil hrun
  cases qs with
  | nil =>
    have hm : m = buildTree ["a/b", "a"] := by
      rw [navigate] at hnav
      exact (Option.some.inj hnav).symm
    subst hm
    have hn : ("a/b" : String) = n :=
      hp.trans (show String.intercalate "/" (([] : List String) ++ [n]) = n from rfl)
    have hnone : alookup (buildTree ["a/b", "a"]).children n = none := by
      show alookup [("a", Node.mk "a" true [("b", Node.mk "b" true [])])] n = none
      rw [alookup, if_neg (show ¬ ("a" : String) = n from hn ▸ (by decide))]
      rfl
    rw [hnone] at hc
    cases hc
  | cons x qs' =>
    rw [dirChain] at hchain
    by_cases hx : "a" = x
    · subst hx
      have hA : alookup (buildTree ["a/b", "a"]).children "a" =
          some (Node.mk "a" true [("b", Node.mk "b" true [])]) := rfl
      rw [hA] at hchain
      simp [Node.isScript] at hchain
    · have hnone : alookup (buildTree ["a/b", "a"]).children x = none := by
        show alookup [("a", Node.mk "a" true [("b", Node.mk "b" true [])])] x = none
        rw [alookup, if_neg hx]
        rfl
      rw [hnone] at hchain
      cases hchain

end Giorgio
